import Mathlib

/-!
Verification of the currency-conversion and exchange-rate caching subsystem
of the smart-finances repository (`src/expenses.py`, `src/apis.py`).

The Python code manipulates pandas data frames; here each data frame is
embedded as a list of rows.  Machine floats are modelled as `Rat`, dates as
ISO strings, and the pandas index operations (difference, groupby, sort)
as explicit list functions with the same observable behaviour: the index
difference is sorted, `groupby` keys are sorted and unique, and
`sort_index` sorts by the composite key.  File and network I/O are passed
explicitly: the rate file is an `Option RateFile` value, the exchange-rate
HTTP endpoint is an oracle argument, and writes and fetch calls are logged
in the result structure.
-/

namespace SmartFinances

/-! ## Code-point lexicographic order on strings

Python (and pandas, when sorting an object index of strings) compares
strings lexicographically by Unicode code point.  Lean's built-in `String`
order does not reduce in the kernel, so we define the same order on the
underlying character lists. -/

/-- Strict lexicographic order on character lists, by Unicode code point. -/
def lexLtChars : List Char → List Char → Bool
  | [], [] => false
  | [], _ :: _ => true
  | _ :: _, [] => false
  | a :: as, b :: bs =>
    if a.toNat < b.toNat then true
    else if b.toNat < a.toNat then false
    else lexLtChars as bs

/-- `a` is strictly below `b` in code-point lexicographic order. -/
def strLt (a b : String) : Bool := lexLtChars a.data b.data

/-- `a` is at or below `b` in code-point lexicographic order. -/
def strLe (a b : String) : Bool := !(strLt b a)

theorem lexLtChars_asymm : ∀ a b, lexLtChars a b = true → lexLtChars b a = false
  | [], [], h => by cases h
  | _ :: _, [], h => by cases h
  | [], _ :: _, _ => rfl
  | a :: as, b :: bs, h => by
    simp only [lexLtChars] at h ⊢
    split at h
    · next hab =>
      rw [if_neg (by omega), if_pos hab]
    · next hab =>
      split at h
      · cases h
      · next hba =>
        rw [if_neg hba, if_neg hab]
        exact lexLtChars_asymm as bs h

theorem lexLtChars_negtrans :
    ∀ a b c, lexLtChars c b = false → lexLtChars b a = false → lexLtChars c a = false
  | [], [], _, h1, _ => h1
  | [], _ :: _, [], _, _ => rfl
  | [], _ :: _, _ :: _, _, _ => rfl
  | _ :: _, [], _, _, h2 => by cases h2
  | _ :: _, _ :: _, [], h1, _ => by cases h1
  | x :: as, y :: bs, z :: cs, h1, h2 => by
    simp only [lexLtChars] at h1 h2 ⊢
    split at h1
    · cases h1
    · next hzy =>
      split at h2
      · cases h2
      · next hyx =>
        rw [if_neg (by omega)]
        split at h1
        · next => rw [if_pos (by omega)]
        · next hyz =>
          split at h2
          · next => rw [if_pos (by omega)]
          · next hxy =>
            split
            · rfl
            · next hxz =>
              exact lexLtChars_negtrans as bs cs h1 h2

theorem strLe_total (a b : String) : strLe a b = true ∨ strLe b a = true := by
  simp only [strLe, Bool.not_eq_true']
  rcases h : strLt b a with _ | _
  · exact Or.inl rfl
  · exact Or.inr (lexLtChars_asymm _ _ h)

theorem strLe_trans {a b c : String} (h1 : strLe a b = true) (h2 : strLe b c = true) :
    strLe a c = true := by
  simp only [strLe, Bool.not_eq_true'] at h1 h2 ⊢
  exact lexLtChars_negtrans _ _ _ h2 h1

theorem strLe_of_not_strLe {a b : String} (h : ¬ strLe a b = true) : strLe b a = true :=
  (strLe_total a b).resolve_left h

/-! ## Sorting and deduplication by a string key

`DataFrame.sort_index`, `Index.difference` (whose result is sorted) and
`groupby` (whose group keys are sorted and unique) are modelled by a stable
insertion sort and a keep-first deduplication, both keyed by a string-valued
projection of the row. -/

/-- Insert `x` in front of the first element whose key is not below `x`'s key.
Rows with equal keys keep their original relative order. -/
def insertByKey (key : α → String) (x : α) : List α → List α
  | [] => [x]
  | y :: ys => if strLe (key x) (key y) then x :: y :: ys else y :: insertByKey key x ys

/-- Stable insertion sort by a string-valued key. -/
def sortByKey (key : α → String) : List α → List α
  | [] => []
  | x :: xs => insertByKey key x (sortByKey key xs)

/-- Keep-first deduplication by key; `seen` accumulates the keys already kept. -/
def dedupByKeyAux (key : α → String) (seen : List String) : List α → List α
  | [] => []
  | x :: xs =>
    if key x ∈ seen then dedupByKeyAux key seen xs
    else x :: dedupByKeyAux key (key x :: seen) xs

/-- Keep-first deduplication by key (`DataFrame.drop_duplicates` on the key column). -/
def dedupByKey (key : α → String) (l : List α) : List α := dedupByKeyAux key [] l

theorem perm_insertByKey (key : α → String) (x : α) :
    ∀ l : List α, (insertByKey key x l).Perm (x :: l)
  | [] => List.Perm.refl _
  | y :: ys => by
    simp only [insertByKey]
    split
    · exact List.Perm.refl _
    · exact ((perm_insertByKey key x ys).cons y).trans (List.Perm.swap x y ys)

theorem perm_sortByKey (key : α → String) : ∀ l : List α, (sortByKey key l).Perm l
  | [] => List.Perm.refl _
  | x :: xs =>
    (perm_insertByKey key x (sortByKey key xs)).trans ((perm_sortByKey key xs).cons x)

theorem mem_sortByKey {key : α → String} {l : List α} {a : α} :
    a ∈ sortByKey key l ↔ a ∈ l :=
  (perm_sortByKey key l).mem_iff

theorem pairwise_insertByKey {key : α → String} {x : α} {l : List α}
    (h : l.Pairwise (fun a b => strLe (key a) (key b) = true)) :
    (insertByKey key x l).Pairwise (fun a b => strLe (key a) (key b) = true) := by
  induction l with
  | nil => simp [insertByKey]
  | cons y ys ih =>
    simp only [insertByKey]
    rcases h with _ | ⟨hy, hys⟩
    split
    · next hxy =>
      refine List.Pairwise.cons ?_ (List.Pairwise.cons hy hys)
      intro z hz
      rcases List.mem_cons.mp hz with rfl | hz
      · exact hxy
      · exact strLe_trans hxy (hy _ hz)
    · next hxy =>
      refine List.Pairwise.cons ?_ (ih hys)
      intro z hz
      rcases List.mem_cons.mp ((perm_insertByKey key x ys).mem_iff.mp hz) with rfl | hz
      · exact strLe_of_not_strLe hxy
      · exact hy _ hz

theorem pairwise_sortByKey (key : α → String) :
    ∀ l : List α, (sortByKey key l).Pairwise (fun a b => strLe (key a) (key b) = true)
  | [] => List.Pairwise.nil
  | _ :: xs => pairwise_insertByKey (pairwise_sortByKey key xs)

theorem mem_of_mem_dedupByKeyAux {key : α → String} {seen : List String} :
    ∀ {l : List α} {a : α}, a ∈ dedupByKeyAux key seen l → a ∈ l := by
  intro l
  induction l generalizing seen with
  | nil => intro a h; cases h
  | cons x xs ih =>
    intro a h
    simp only [dedupByKeyAux] at h
    split at h
    · exact List.mem_cons_of_mem _ (ih h)
    · rcases List.mem_cons.mp h with rfl | h
      · exact List.mem_cons_self _ _
      · exact List.mem_cons_of_mem _ (ih h)

theorem mem_map_dedupByKeyAux (key : α → String) :
    ∀ (l : List α) (seen : List String) (k : String),
      k ∈ (dedupByKeyAux key seen l).map key ↔ k ∉ seen ∧ k ∈ l.map key := by
  intro l
  induction l with
  | nil => intro seen k; simp [dedupByKeyAux]
  | cons x xs ih =>
    intro seen k
    simp only [dedupByKeyAux]
    split
    · next hx =>
      rw [ih]
      simp only [List.map_cons, List.mem_cons]
      constructor
      · rintro ⟨h1, h2⟩; exact ⟨h1, Or.inr h2⟩
      · rintro ⟨h1, h2 | h2⟩
        · subst h2; exact absurd hx h1
        · exact ⟨h1, h2⟩
    · next hx =>
      simp only [List.map_cons, List.mem_cons, ih]
      constructor
      · rintro (h | ⟨h1, h2⟩)
        · subst h; exact ⟨hx, Or.inl rfl⟩
        · exact ⟨fun hs => h1 (Or.inr hs), Or.inr h2⟩
      · rintro ⟨h1, h2 | h2⟩
        · exact Or.inl h2
        · by_cases hk : k = key x
          · exact Or.inl hk
          · exact Or.inr ⟨fun hs => hs.elim hk h1, h2⟩

theorem mem_map_dedupByKey {key : α → String} {l : List α} {k : String} :
    k ∈ (dedupByKey key l).map key ↔ k ∈ l.map key := by
  rw [dedupByKey, mem_map_dedupByKeyAux]
  simp

theorem nodup_map_dedupByKeyAux (key : α → String) :
    ∀ (l : List α) (seen : List String), ((dedupByKeyAux key seen l).map key).Nodup := by
  intro l
  induction l with
  | nil => intro seen; simp [dedupByKeyAux]
  | cons x xs ih =>
    intro seen
    simp only [dedupByKeyAux]
    split
    · exact ih seen
    · simp only [List.map_cons, List.nodup_cons]
      refine ⟨fun h => ?_, ih _⟩
      exact ((mem_map_dedupByKeyAux key xs _ _).mp h).1 (List.mem_cons_self _ _)

theorem nodup_map_dedupByKey {key : α → String} {l : List α} :
    ((dedupByKey key l).map key).Nodup := nodup_map_dedupByKeyAux key l []

/-! ## Data model

Rows of the exchange-rate table and of the transaction ledger
(`src/expenses.py`).  The intermediate `date_curr` column added to the
ledger by `update_exchange_rate_records`, and the `amount` column added by
`convert_foreign_transactions`, are optional fields that are `none` while
the column is absent from the frame. -/

/-- The default base currency (`DEFAULT_CURRENCY` in `src/__init__.py`). -/
def DEFAULT_CURRENCY : String := "GBP"

/-- The composite cache key `{date}_{currency}`. -/
def compositeKey (d c : String) : String := d ++ "_" ++ c

/-- One row of the exchange-rate table, indexed by `date_curr`. -/
structure RateRow where
  date_curr : String
  date : String
  currency_code : String
  rate_per_base : Rat
deriving DecidableEq, Repr

/-- The in-memory exchange-rate table: a list of rows, indexed by `date_curr`. -/
abbrev RateTable := List RateRow

/-- One ledger row, with only the fields `convert_foreign_transactions` uses.
`date_curr` and `amount` are the columns added during conversion. -/
structure Txn where
  date : String
  currency_code : String
  owed : Rat
  date_curr : Option String := none
  amount : Option Rat := none
deriving DecidableEq, Repr

/-- The persisted exchange-rate CSV: its header row and its data rows.
An arbitrary header is allowed so that the schema check of
`update_exchange_rate_records` can be stated. -/
structure RateFile where
  header : List String
  rows : List RateRow
deriving DecidableEq, Repr

/-- `exchange_rate_column_names` in `update_exchange_rate_records`. -/
def exchange_rate_column_names : List String :=
  ["date_curr", "date", "currency_code", "rate_per_base"]

/-! ## `src/apis.py`: `APICall.make_api_call`

The HTTP layer is external; a call is modelled by the response it would
produce.  `NUM_API_CALLS` is the class-level call counter, threaded
explicitly. -/

/-- The observable part of a `requests` response. -/
structure HttpResponse where
  status_code : Nat
  reason : String
  text : String
deriving DecidableEq, Repr

/-- `APICall.make_api_call`: increment `NUM_API_CALLS`, then raise
`APICallError` on a non-200 status, else return the body text. -/
def make_api_call (response : HttpResponse) (num_api_calls : Nat) :
    Nat × Except String String :=
  (num_api_calls + 1,
    if response.status_code ≠ 200 then
      .error ("API call failed with the following error: " ++ response.reason)
    else
      .ok response.text)

/-! ## `src/expenses.py`: the conversion engine -/

/-- The exchange-rate API boundary: for a date and a list of currency
symbols, the parsed `rates` mapping of the JSON response (a list of
currency/rate pairs), or the `APICallError` raised by `make_api_call`. -/
abbrev Fetcher := String → List String → Except String (List (String × Rat))

/-- `get_exchange_rates`: query the rate API for one date and build a row
`[{date}_{curr}, date, curr, rates[curr]]` per currency of the response. -/
def get_exchange_rates (fetch : Fetcher) (symbols : List String)
    (conversion_date : String) : Except String (List RateRow) :=
  match fetch conversion_date symbols with
  | .error e => .error e
  | .ok rates =>
      .ok (rates.map fun rc =>
        ⟨compositeKey conversion_date rc.1, conversion_date, rc.1, rc.2⟩)

/-- A fetcher built on `make_api_call`: `net` gives the HTTP response for a
date and symbol list, `parseRates` the parsed `rates` field of a response
body.  Errors of `make_api_call` propagate unmodified. -/
def httpFetcher (net : String → List String → HttpResponse)
    (parseRates : String → List (String × Rat)) : Fetcher := fun d symbols =>
  match (make_api_call (net d symbols) 0).2 with
  | .error e => .error e
  | .ok text => .ok (parseRates text)

/-- Loading the stored rates (`update_exchange_rate_records`, first block):
a missing file yields an empty frame with the canonical columns; an
existing file is read with `index_col="date_curr"` (`read_csv` selects the
index column by name and fails when it is absent), and the remaining
columns must be exactly `date, currency_code, rate_per_base` in order. -/
def loadExchangeRates (file : Option RateFile) : Except String RateTable :=
  match file with
  | none => .ok []
  | some f =>
      if "date_curr" ∈ f.header then
        if f.header.erase "date_curr" = ["date", "currency_code", "rate_per_base"] then
          .ok f.rows
        else
          .error "incorrect format"
      else
        .error "index column date_curr not found"

/-- The in-place assignment
`all_transactions[index_column_name] = date.astype(str) + "_" + currency_code`:
every row of the caller's frame gains the composite-key column. -/
def withKeys (ts : List Txn) : List Txn :=
  ts.map fun t => { t with date_curr := some (compositeKey t.date t.currency_code) }

/-- `date_currencies`: drop the rows whose currency is the base currency,
keep the key/date/currency columns, and drop duplicate composite keys
(keeping the first occurrence).  Each element is `(date_curr, date, currency)`. -/
def dateCurrencies (ts : List Txn) (default_curr : String) :
    List (String × String × String) :=
  dedupByKey (fun p => p.1)
    ((ts.filter fun t => t.currency_code ≠ default_curr).map fun t =>
      (compositeKey t.date t.currency_code, t.date, t.currency_code))

/-- `new_date_currencies = date_currencies.loc[index.difference(existing)]`:
`Index.difference` returns the keys of `date_currencies` absent from the
existing table, sorted; `.loc` then selects the rows in that key order. -/
def newDateCurrencies (dcs : List (String × String × String))
    (existingKeys : List String) : List (String × String × String) :=
  (sortByKey id ((dcs.map fun p => p.1).filter fun k => k ∉ existingKeys)).filterMap
    fun k => dcs.find? fun p => p.1 == k

/-- `forex_requests`: group the missing pairs by date (`groupby` keys are
the distinct dates, sorted) and collect each date's currency list. -/
def forexRequests (ndc : List (String × String × String)) :
    List (String × List String) :=
  (sortByKey id (dedupByKey id (ndc.map fun p => p.2.1))).map fun d =>
    (d, (ndc.filter fun p => p.2.1 = d).map fun p => p.2.2)

/-- The `forex_requests.apply(get_exchange_rates …)` loop: one fetch per
request row, in order; the first raised error aborts the remaining rows.
Returns the log of issued calls together with the collected rows. -/
def fetchAll (fetch : Fetcher) :
    List (String × List String) → List (String × List String) × Except String (List RateRow)
  | [] => ([], .ok [])
  | (d, symbols) :: rest =>
    match get_exchange_rates fetch symbols d with
    | .error e => ([(d, symbols)], .error e)
    | .ok rows =>
        match fetchAll fetch rest with
        | (log, .error e) => ((d, symbols) :: log, .error e)
        | (log, .ok more) => ((d, symbols) :: log, .ok (rows ++ more))

/-- Errors of `update_exchange_rate_records`: the schema assertion on the
stored file, or an `APICallError` escaping from a fetch. -/
inductive UpdateError where
  | format (msg : String)
  | fetch (msg : String)
deriving DecidableEq, Repr

/-- The observable outcome of `update_exchange_rate_records`:
the caller's (possibly mutated) transactions frame, the returned table or
the raised error, the rate file after the call, the log of file writes and
the log of fetch calls. -/
structure UpdateResult where
  transactions : List Txn
  rates : Except UpdateError RateTable
  file : Option RateFile
  writes : List RateFile
  fetches : List (String × List String)
deriving Repr

/-- `update_exchange_rate_records`: load the stored rates (aborting on a
schema mismatch), add the key column to the caller's frame in place,
compute the missing key set, fetch it grouped by date, and when anything
was fetched overwrite the file with the concatenated table sorted by key. -/
def update_exchange_rate_records (fetch : Fetcher) (all_transactions : List Txn)
    (exchange_rate_file : Option RateFile) (default_curr : String := DEFAULT_CURRENCY) :
    UpdateResult :=
  match loadExchangeRates exchange_rate_file with
  | .error e =>
      { transactions := all_transactions, rates := .error (.format e),
        file := exchange_rate_file, writes := [], fetches := [] }
  | .ok existing_exchange_rates =>
    let txns := withKeys all_transactions
    let ndc := newDateCurrencies (dateCurrencies all_transactions default_curr)
      (existing_exchange_rates.map fun r => r.date_curr)
    if ndc.isEmpty then
      { transactions := txns, rates := .ok existing_exchange_rates,
        file := exchange_rate_file, writes := [], fetches := [] }
    else
      match fetchAll fetch (forexRequests ndc) with
      | (log, .error e) =>
          { transactions := txns, rates := .error (.fetch e),
            file := exchange_rate_file, writes := [], fetches := log }
      | (log, .ok new_exchange_rates) =>
          let all_exchange_rates :=
            sortByKey (fun r => r.date_curr)
              (existing_exchange_rates ++ new_exchange_rates)
          let out : RateFile := ⟨exchange_rate_column_names, all_exchange_rates⟩
          { transactions := txns, rates := .ok all_exchange_rates,
            file := some out, writes := [out], fetches := log }

/-- `updated_exchange_rates.rate_per_base` looked up at a key
(`Series.map` over the index): the first row with that key, if any. -/
def lookupRate (tbl : RateTable) (k : String) : Option Rat :=
  (tbl.find? fun r => r.date_curr == k).map fun r => r.rate_per_base

/-- One row of `transactions.assign(amount=owed / map(rate_per_base).fillna(1))
.drop(columns=[index_column_name])`: divide by the looked-up rate, with 1
for an unmatched key, and drop the key column from the result row. -/
def convertRow (tbl : RateTable) (t : Txn) : Txn :=
  { t with
    amount := some (t.owed / ((t.date_curr.bind (lookupRate tbl)).getD 1)),
    date_curr := none }

/-- The observable outcome of `convert_foreign_transactions`: the caller's
(possibly mutated) input frame, the returned converted frame or raised
error, the rate file, write and fetch logs, and any warnings emitted
during conversion (the source emits none). -/
structure ConvertResult where
  transactions : List Txn
  converted : Except UpdateError (List Txn)
  file : Option RateFile
  writes : List RateFile
  fetches : List (String × List String)
  warnings : List String
deriving Repr

/-- `convert_foreign_transactions`: update the stored exchange rates, then
divide each `owed` by its rate (1 when no match) and drop the key column
from the returned frame.  No warning is emitted anywhere. -/
def convert_foreign_transactions (fetch : Fetcher) (transactions : List Txn)
    (exchange_rate_file : Option RateFile)
    (default_curr : String := DEFAULT_CURRENCY) : ConvertResult :=
  let u := update_exchange_rate_records fetch transactions exchange_rate_file default_curr
  { transactions := u.transactions,
    converted :=
      match u.rates with
      | .error e => .error e
      | .ok tbl => .ok (u.transactions.map (convertRow tbl)),
    file := u.file, writes := u.writes, fetches := u.fetches,
    warnings := [] }

/-! ## Branch equations for `update_exchange_rate_records` -/

theorem update_eq_of_load_error {fetch ts file base e}
    (h : loadExchangeRates file = .error e) :
    update_exchange_rate_records fetch ts file base =
      { transactions := ts, rates := .error (.format e),
        file := file, writes := [], fetches := [] } := by
  unfold update_exchange_rate_records
  rw [h]

theorem update_eq_of_no_missing {fetch ts file base existing}
    (h : loadExchangeRates file = .ok existing)
    (h2 : newDateCurrencies (dateCurrencies ts base)
      (existing.map fun r => r.date_curr) = []) :
    update_exchange_rate_records fetch ts file base =
      { transactions := withKeys ts, rates := .ok existing,
        file := file, writes := [], fetches := [] } := by
  unfold update_exchange_rate_records
  rw [h]
  simp only [h2, List.isEmpty_nil, if_true]

theorem update_eq_of_fetch_error {fetch ts file base existing log e}
    (h : loadExchangeRates file = .ok existing)
    (h2 : newDateCurrencies (dateCurrencies ts base)
      (existing.map fun r => r.date_curr) ≠ [])
    (h3 : fetchAll fetch (forexRequests (newDateCurrencies (dateCurrencies ts base)
      (existing.map fun r => r.date_curr))) = (log, .error e)) :
    update_exchange_rate_records fetch ts file base =
      { transactions := withKeys ts, rates := .error (.fetch e),
        file := file, writes := [], fetches := log } := by
  unfold update_exchange_rate_records
  rw [h]
  simp only [List.isEmpty_iff, h2, if_false, h3]

theorem update_eq_of_fetch_ok {fetch ts file base existing log newRows}
    (h : loadExchangeRates file = .ok existing)
    (h2 : newDateCurrencies (dateCurrencies ts base)
      (existing.map fun r => r.date_curr) ≠ [])
    (h3 : fetchAll fetch (forexRequests (newDateCurrencies (dateCurrencies ts base)
      (existing.map fun r => r.date_curr))) = (log, .ok newRows)) :
    update_exchange_rate_records fetch ts file base =
      { transactions := withKeys ts,
        rates := .ok (sortByKey (fun r => r.date_curr) (existing ++ newRows)),
        file := some ⟨exchange_rate_column_names,
          sortByKey (fun r => r.date_curr) (existing ++ newRows)⟩,
        writes := [⟨exchange_rate_column_names,
          sortByKey (fun r => r.date_curr) (existing ++ newRows)⟩],
        fetches := log } := by
  unfold update_exchange_rate_records
  rw [h]
  simp only [List.isEmpty_iff, h2, if_false, h3]

/-! ## Properties of the missing-pair computation -/

theorem mem_dateCurrencies {ts : List Txn} {base : String}
    {p : String × String × String} (h : p ∈ dateCurrencies ts base) :
    p.2.2 ≠ base ∧ p.1 = compositeKey p.2.1 p.2.2 ∧
      ∃ t ∈ ts, t.currency_code ≠ base ∧ t.date = p.2.1 ∧ t.currency_code = p.2.2 := by
  have h' := mem_of_mem_dedupByKeyAux h
  rw [List.mem_map] at h'
  obtain ⟨t, ht, rfl⟩ := h'
  rw [List.mem_filter] at ht
  obtain ⟨ht, hbase⟩ := ht
  simp only [ne_eq, decide_not, Bool.not_eq_true', decide_eq_false_iff_not] at hbase
  exact ⟨hbase, rfl, t, ht, hbase, rfl, rfl⟩

theorem mem_keys_dateCurrencies {ts : List Txn} {base : String} {k : String} :
    k ∈ (dateCurrencies ts base).map (fun p => p.1) ↔
      ∃ t ∈ ts, t.currency_code ≠ base ∧ compositeKey t.date t.currency_code = k := by
  rw [dateCurrencies, mem_map_dedupByKey]
  simp only [List.map_map, List.mem_map, Function.comp, List.mem_filter]
  constructor
  · rintro ⟨t, ⟨ht, hbase⟩, rfl⟩
    simp only [ne_eq, decide_not, Bool.not_eq_true', decide_eq_false_iff_not] at hbase
    exact ⟨t, ht, hbase, rfl⟩
  · rintro ⟨t, ht, hbase, rfl⟩
    exact ⟨t, ⟨ht, by simpa using hbase⟩, rfl⟩

theorem mem_newDateCurrencies {dcs : List (String × String × String)}
    {existingKeys : List String} {p : String × String × String}
    (h : p ∈ newDateCurrencies dcs existingKeys) : p ∈ dcs ∧ p.1 ∉ existingKeys := by
  rw [newDateCurrencies, List.mem_filterMap] at h
  obtain ⟨k, hk, hfind⟩ := h
  rw [mem_sortByKey, List.mem_filter] at hk
  obtain ⟨-, hnot⟩ := hk
  have hp := List.find?_some hfind
  rw [beq_iff_eq] at hp
  subst hp
  exact ⟨List.mem_of_find?_eq_some hfind, by simpa using hnot⟩

theorem mem_keys_newDateCurrencies {dcs : List (String × String × String)}
    {existingKeys : List String} {k : String} :
    k ∈ (newDateCurrencies dcs existingKeys).map (fun p => p.1) ↔
      k ∈ dcs.map (fun p => p.1) ∧ k ∉ existingKeys := by
  constructor
  · rw [List.mem_map]
    rintro ⟨p, hp, rfl⟩
    obtain ⟨hdcs, hnot⟩ := mem_newDateCurrencies hp
    exact ⟨List.mem_map_of_mem _ hdcs, hnot⟩
  · rintro ⟨hmem, hnot⟩
    have hsome : (dcs.find? fun p => p.1 == k).isSome := by
      rw [List.find?_isSome]
      rw [List.mem_map] at hmem
      obtain ⟨p, hp, rfl⟩ := hmem
      exact ⟨p, hp, by simp⟩
    obtain ⟨p, hfind⟩ := Option.isSome_iff_exists.mp hsome
    have hkey : p.1 = k := by simpa using List.find?_some hfind
    rw [List.mem_map]
    refine ⟨p, ?_, hkey⟩
    rw [newDateCurrencies, List.mem_filterMap]
    refine ⟨k, ?_, hfind⟩
    rw [mem_sortByKey, List.mem_filter]
    exact ⟨hmem, by simpa using hnot⟩

/-! ## Properties of the fetch loop -/

theorem fetchAll_ok_log {fetch : Fetcher} :
    ∀ {reqs : List (String × List String)} {log rows},
      fetchAll fetch reqs = (log, .ok rows) → log = reqs := by
  intro reqs
  induction reqs with
  | nil => intro log rows h; simpa [fetchAll] using congrArg Prod.fst h
  | cons r rest ih =>
    intro log rows h
    obtain ⟨d, symbols⟩ := r
    simp only [fetchAll] at h
    split at h
    · cases h
    · split at h
      · next heq => cases h
      · next log' more heq =>
        have hfst := congrArg Prod.fst h
        simp only at hfst
        rw [← hfst, ih heq]

/-- A fetcher whose successful responses contain exactly the requested
symbols, in order — the documented contract of the exchange-rate API. -/
def FetcherReturnsRequested (fetch : Fetcher) : Prop :=
  ∀ d symbols rates, fetch d symbols = .ok rates → rates.map Prod.fst = symbols

theorem mem_keys_fetchAll {fetch : Fetcher} (hgood : FetcherReturnsRequested fetch) :
    ∀ {reqs : List (String × List String)} {log rows},
      fetchAll fetch reqs = (log, .ok rows) →
      ∀ p ∈ reqs, ∀ c ∈ p.2, compositeKey p.1 c ∈ rows.map fun r => r.date_curr := by
  intro reqs
  induction reqs with
  | nil => intro log rows _ p hp; cases hp
  | cons r rest ih =>
    intro log rows h p hp c hc
    obtain ⟨d, symbols⟩ := r
    simp only [fetchAll] at h
    split at h
    · cases h
    · next rows0 hget =>
      split at h
      · cases h
      · next log' more heq =>
        have hrows : rows = rows0 ++ more :=
          (by simpa using congrArg Prod.snd h : rows0 ++ more = rows).symm
        subst hrows
        rcases List.mem_cons.mp hp with rfl | hp
        · -- the head request: its key is among the rows fetched for it
          rw [get_exchange_rates] at hget
          split at hget
          · cases hget
          · next rates hrates =>
            have hr : rows0 = rates.map fun rc =>
                ⟨compositeKey d rc.1, d, rc.1, rc.2⟩ := by
              simpa using hget.symm
            have hsym := hgood d symbols rates hrates
            subst hr
            simp only [List.map_map, List.map_append, List.mem_append]
            left
            rw [show ((fun r : RateRow => r.date_curr) ∘
                (fun rc : String × Rat =>
                  (⟨compositeKey d rc.1, d, rc.1, rc.2⟩ : RateRow))) =
                (fun rc : String × Rat => compositeKey d rc.1) from rfl]
            rw [show (fun rc : String × Rat => compositeKey d rc.1) =
                (compositeKey d) ∘ Prod.fst from rfl, ← List.map_map, hsym]
            exact List.mem_map_of_mem _ hc
        · simp only [List.map_append, List.mem_append]
          exact Or.inr (ih heq p hp c hc)

/-! ## Characterization of `convert_foreign_transactions` -/

theorem update_transactions_of_rates_ok {fetch ts file base tbl}
    (h : (update_exchange_rate_records fetch ts file base).rates = .ok tbl) :
    (update_exchange_rate_records fetch ts file base).transactions = withKeys ts := by
  cases hload : loadExchangeRates file with
  | error e => rw [update_eq_of_load_error hload] at h; cases h
  | ok existing =>
    by_cases hndc : newDateCurrencies (dateCurrencies ts base)
        (existing.map fun r => r.date_curr) = []
    · rw [update_eq_of_no_missing hload hndc]
    · rcases hf : fetchAll fetch (forexRequests (newDateCurrencies (dateCurrencies ts base)
          (existing.map fun r => r.date_curr))) with ⟨log, res⟩
      cases res with
      | error e => rw [update_eq_of_fetch_error hload hndc hf] at h; cases h
      | ok newRows => rw [update_eq_of_fetch_ok hload hndc hf]

theorem convert_converted_of_rates_ok {fetch ts file base tbl}
    (h : (update_exchange_rate_records fetch ts file base).rates = .ok tbl) :
    (convert_foreign_transactions fetch ts file base).converted =
      .ok ((withKeys ts).map (convertRow tbl)) := by
  rw [convert_foreign_transactions]
  simp only [h, update_transactions_of_rates_ok h]

theorem convert_converted_of_rates_error {fetch ts file base e}
    (h : (update_exchange_rate_records fetch ts file base).rates = .error e) :
    (convert_foreign_transactions fetch ts file base).converted = .error e := by
  rw [convert_foreign_transactions]
  simp only [h]

/-! ## The claims -/

/-- C8: `APICall.make_api_call` records exactly one attempt (the call
counter grows by one, with no retry), raises `APICallError` if and only if
the upstream status is not 200 — with the error text built from the
response's reason — returns the response body on success, and the error
propagates unmodified through the exchange-rate fetch boundary. -/
theorem api_error_iff_non_success :
    ∀ (response : HttpResponse) (n : Nat),
      (make_api_call response n).1 = n + 1 ∧
      ((∃ e, (make_api_call response n).2 = .error e) ↔ response.status_code ≠ 200) ∧
      (response.status_code = 200 → (make_api_call response n).2 = .ok response.text) ∧
      (response.status_code ≠ 200 →
        (make_api_call response n).2 =
          .error ("API call failed with the following error: " ++ response.reason)) ∧
      (∀ net parseRates d symbols, (net d symbols).status_code ≠ 200 →
        httpFetcher net parseRates d symbols =
          .error ("API call failed with the following error: " ++ (net d symbols).reason)) ∧
      (∀ net parseRates d symbols, (net d symbols).status_code = 200 →
        httpFetcher net parseRates d symbols = .ok (parseRates (net d symbols).text)) := by
  intro response n
  refine ⟨rfl, ?_, ?_, ?_, ?_, ?_⟩
  · constructor
    · rintro ⟨e, he⟩ h200
      rw [make_api_call] at he
      simp only [h200, ne_eq, not_true_eq_false, if_false] at he
      cases he
    · intro h200
      refine ⟨"API call failed with the following error: " ++ response.reason, ?_⟩
      rw [make_api_call]
      simp only [ne_eq, h200, not_false_eq_true, if_true]
  · intro h200
    rw [make_api_call]
    simp only [h200, ne_eq, not_true_eq_false, if_false]
  · intro h200
    rw [make_api_call]
    simp only [ne_eq, h200, not_false_eq_true, if_true]
  · intro net parseRates d symbols h200
    rw [httpFetcher, make_api_call]
    simp only [ne_eq, h200, not_false_eq_true, if_true]
  · intro net parseRates d symbols h200
    rw [httpFetcher, make_api_call]
    simp only [h200, ne_eq, not_true_eq_false, if_false]

theorem api_error_iff_non_success_witness :
    (make_api_call ⟨404, "Not Found", ""⟩ 0).1 = 1 ∧
    (make_api_call ⟨404, "Not Found", ""⟩ 0).2 =
      .error "API call failed with the following error: Not Found" ∧
    (make_api_call ⟨200, "OK", "body"⟩ 0).2 = .ok "body" :=
  ⟨(api_error_iff_non_success ⟨404, "Not Found", ""⟩ 0).1,
   (api_error_iff_non_success ⟨404, "Not Found", ""⟩ 0).2.2.2.1 (by decide),
   (api_error_iff_non_success ⟨200, "OK", "body"⟩ 0).2.2.1 rfl⟩

/-- C5, counterexample: a stored file whose columns are
`date, date_curr, currency_code, rate_per_base` does not match the
canonical schema in order, yet loading succeeds, because `read_csv`
selects the `date_curr` index column by name and the remaining columns
are then in the expected order.  So "fails if and only if the columns do
not match the canonical schema exactly in names and order" is false. -/
theorem load_format_check_not_exact_order :
    loadExchangeRates (some ⟨["date", "date_curr", "currency_code", "rate_per_base"],
        [⟨"2023-06-01_USD", "2023-06-01", "USD", 2⟩]⟩) =
      .ok [⟨"2023-06-01_USD", "2023-06-01", "USD", 2⟩] ∧
    ["date", "date_curr", "currency_code", "rate_per_base"] ≠
      exchange_rate_column_names := by
  exact ⟨rfl, by decide⟩

/-- C5, amended: loading returns an empty table when the file is missing;
an existing file fails the load — fatally, before any fetch call is made
and with no write — if and only if its columns fail the source's check:
either there is no `date_curr` column at all, or the columns other than
`date_curr` are not exactly `date, currency_code, rate_per_base` in names
and order. -/
theorem load_rate_store_schema_check :
    loadExchangeRates none = .ok [] ∧
    (∀ f : RateFile,
      (∃ e, loadExchangeRates (some f) = .error e) ↔
        ¬("date_curr" ∈ f.header ∧
          f.header.erase "date_curr" = ["date", "currency_code", "rate_per_base"])) ∧
    (∀ fetch ts base file e, loadExchangeRates file = .error e →
      (update_exchange_rate_records fetch ts file base).fetches = [] ∧
      (update_exchange_rate_records fetch ts file base).writes = [] ∧
      (update_exchange_rate_records fetch ts file base).rates = .error (.format e)) := by
  refine ⟨rfl, ?_, ?_⟩
  · intro f
    rw [loadExchangeRates]
    constructor
    · rintro ⟨e, he⟩ ⟨hidx, hcols⟩
      rw [if_pos hidx, if_pos hcols] at he
      cases he
    · intro hnot
      by_cases hidx : "date_curr" ∈ f.header
      · rw [if_pos hidx]
        by_cases hcols : f.header.erase "date_curr" =
            ["date", "currency_code", "rate_per_base"]
        · exact absurd ⟨hidx, hcols⟩ hnot
        · rw [if_neg hcols]; exact ⟨_, rfl⟩
      · rw [if_neg hidx]; exact ⟨_, rfl⟩
  · intro fetch ts base file e h
    rw [update_eq_of_load_error h]
    exact ⟨rfl, rfl, rfl⟩

theorem load_rate_store_schema_check_witness :
    loadExchangeRates none = .ok [] ∧
    (∃ e, loadExchangeRates (some ⟨["wrong"], []⟩) = .error e) ∧
    (update_exchange_rate_records (fun _ _ => .error "unused") []
      (some ⟨["wrong"], []⟩) "GBP").fetches = [] :=
  ⟨load_rate_store_schema_check.1,
   (load_rate_store_schema_check.2.1 ⟨["wrong"], []⟩).mpr (by decide),
   (load_rate_store_schema_check.2.2 (fun _ _ => .error "unused") [] "GBP"
     (some ⟨["wrong"], []⟩) "index column date_curr not found" rfl).1⟩

/-- C2: the missing key set computed before fetching is exactly the
composite-key set difference between the (deduplicated) keys of the
ledger's foreign-currency rows and the keys of the existing table, and no
missing pair carries the base currency. -/
theorem missing_is_set_difference (ts : List Txn) (existing : RateTable) (base : String) :
    (∀ k, k ∈ (newDateCurrencies (dateCurrencies ts base)
          (existing.map fun r => r.date_curr)).map (fun p => p.1) ↔
        ((∃ t ∈ ts, t.currency_code ≠ base ∧ compositeKey t.date t.currency_code = k) ∧
          k ∉ existing.map fun r => r.date_curr)) ∧
    (∀ p ∈ newDateCurrencies (dateCurrencies ts base)
        (existing.map fun r => r.date_curr), p.2.2 ≠ base) := by
  constructor
  · intro k
    rw [mem_keys_newDateCurrencies, mem_keys_dateCurrencies]
  · intro p hp
    exact (mem_dateCurrencies (mem_newDateCurrencies hp).1).1

theorem missing_is_set_difference_witness :
    ("2023-06-01_USD" ∈ (newDateCurrencies
        (dateCurrencies [{ date := "2023-06-01", currency_code := "USD", owed := 1 },
          { date := "2023-06-01", currency_code := "GBP", owed := 2 }] "GBP")
        []).map (fun p => p.1)) ∧
    (∀ p ∈ newDateCurrencies
        (dateCurrencies [{ date := "2023-06-01", currency_code := "USD", owed := 1 },
          { date := "2023-06-01", currency_code := "GBP", owed := 2 }] "GBP")
        [], p.2.2 ≠ "GBP") :=
  ⟨((missing_is_set_difference
      [{ date := "2023-06-01", currency_code := "USD", owed := 1 },
        { date := "2023-06-01", currency_code := "GBP", owed := 2 }] [] "GBP").1
      "2023-06-01_USD").mpr
    ⟨⟨{ date := "2023-06-01", currency_code := "USD", owed := 1 },
      by decide, by decide, rfl⟩, by decide⟩,
   (missing_is_set_difference
      [{ date := "2023-06-01", currency_code := "USD", owed := 1 },
        { date := "2023-06-01", currency_code := "GBP", owed := 2 }] [] "GBP").2⟩

theorem update_transactions_of_load_ok {fetch ts file base existing}
    (hload : loadExchangeRates file = .ok existing) :
    (update_exchange_rate_records fetch ts file base).transactions = withKeys ts := by
  by_cases hndc : newDateCurrencies (dateCurrencies ts base)
      (existing.map fun r => r.date_curr) = []
  · rw [update_eq_of_no_missing hload hndc]
  · rcases hf : fetchAll fetch (forexRequests (newDateCurrencies (dateCurrencies ts base)
        (existing.map fun r => r.date_curr))) with ⟨log, res⟩
    cases res with
    | error e => rw [update_eq_of_fetch_error hload hndc hf]
    | ok newRows => rw [update_eq_of_fetch_ok hload hndc hf]

/-- The worked example of the spec: one 100 USD transaction on 2023-06-01,
base GBP, no stored file, and an API that reports a rate of 1.25 for USD
on that date. -/
def usdFetcher : Fetcher := fun d _ =>
  if d = "2023-06-01" then .ok [("USD", (5 : Rat) / 4)] else .error "no rate"

/-- The worked example's ledger. -/
def usdLedger : List Txn := [{ date := "2023-06-01", currency_code := "USD", owed := 100 }]

/-- The rate table produced by the worked example's run. -/
def usdTable : RateTable := [⟨"2023-06-01_USD", "2023-06-01", "USD", (5 : Rat) / 4⟩]

/-- C1: whenever the rate update succeeds, every output row's amount is
the row's owed amount divided by the rate stored under the row's
composite key, and a key with no stored record uses rate 1, so such rows
keep their owed amount unchanged. -/
theorem converted_amount_formula (fetch : Fetcher) (ts : List Txn)
    (file : Option RateFile) (base : String) (tbl : RateTable)
    (h : (update_exchange_rate_records fetch ts file base).rates = .ok tbl) :
    (convert_foreign_transactions fetch ts file base).converted =
      .ok (ts.map fun t =>
        { t with
          date_curr := none,
          amount := some (t.owed /
            ((lookupRate tbl (compositeKey t.date t.currency_code)).getD 1)) }) ∧
    ∀ t : Txn, lookupRate tbl (compositeKey t.date t.currency_code) = none →
      t.owed / ((lookupRate tbl (compositeKey t.date t.currency_code)).getD 1) = t.owed := by
  constructor
  · rw [convert_converted_of_rates_ok h, withKeys, List.map_map]
    exact congrArg Except.ok (List.map_congr_left fun t _ => rfl)
  · intro t h0
    rw [h0, Option.getD_none, div_one]

theorem converted_amount_formula_witness :
    (update_exchange_rate_records usdFetcher usdLedger none "GBP").rates = .ok usdTable ∧
    (convert_foreign_transactions usdFetcher usdLedger none "GBP").converted =
      .ok [{ date := "2023-06-01", currency_code := "USD", owed := 100,
             date_curr := none, amount := some (100 / ((5 : Rat) / 4)) }] ∧
    (100 : Rat) / ((5 : Rat) / 4) = 80 ∧
    (update_exchange_rate_records usdFetcher usdLedger none "GBP").writes =
      [⟨exchange_rate_column_names, usdTable⟩] :=
  ⟨rfl,
   (converted_amount_formula usdFetcher usdLedger none "GBP" usdTable rfl).1.trans rfl,
   by norm_num,
   rfl⟩

/-- A ledger and fetcher for which one transaction's composite key has no
matching rate even after fetch and merge: the API answers the request for
USD with a rate for EUR only. -/
def oddFetcher : Fetcher := fun _ _ => .ok [("EUR", (2 : Rat))]

/-- The ledger for the unresolved-rate scenario. -/
def oddLedger : List Txn := [{ date := "2023-06-02", currency_code := "USD", owed := 7 }]

/-- The rate table produced by the unresolved-rate scenario's run. -/
def oddTable : RateTable := [⟨"2023-06-02_EUR", "2023-06-02", "EUR", (2 : Rat)⟩]

/-- C7, counterexample: a transaction whose key resolves to no rate record
after the fetch-and-merge step is converted with rate 1, but no warning is
emitted for it — the warning channel of the run stays empty, so "a warning
is emitted for that transaction" is false. -/
theorem unresolved_rate_no_warning :
    (update_exchange_rate_records oddFetcher oddLedger none "GBP").rates = .ok oddTable ∧
    lookupRate oddTable "2023-06-02_USD" = none ∧
    (convert_foreign_transactions oddFetcher oddLedger none "GBP").converted =
      .ok [{ date := "2023-06-02", currency_code := "USD", owed := 7,
             date_curr := none, amount := some ((7 : Rat) / 1) }] ∧
    (7 : Rat) / 1 = 7 ∧
    (convert_foreign_transactions oddFetcher oddLedger none "GBP").warnings = [] :=
  ⟨rfl, rfl, rfl, by norm_num, rfl⟩

/-- C7, amended: a transaction whose composite key resolves to no rate
record even after the fetch-and-merge step keeps its owed amount as the
converted amount (rate defaults to 1), and this happens silently — the
conversion emits no warning. -/
theorem fallback_rate_one_silent (fetch : Fetcher) (ts : List Txn)
    (file : Option RateFile) (base : String) (tbl : RateTable)
    (h : (update_exchange_rate_records fetch ts file base).rates = .ok tbl) :
    (convert_foreign_transactions fetch ts file base).converted =
      .ok (ts.map fun t =>
        { t with
          date_curr := none,
          amount := some (t.owed /
            ((lookupRate tbl (compositeKey t.date t.currency_code)).getD 1)) }) ∧
    (∀ t : Txn, lookupRate tbl (compositeKey t.date t.currency_code) = none →
      some (t.owed / ((lookupRate tbl (compositeKey t.date t.currency_code)).getD 1)) =
        some t.owed) ∧
    (convert_foreign_transactions fetch ts file base).warnings = [] := by
  refine ⟨?_, ?_, rfl⟩
  · rw [convert_converted_of_rates_ok h, withKeys, List.map_map]
    exact congrArg Except.ok (List.map_congr_left fun t _ => rfl)
  · intro t h0
    rw [h0, Option.getD_none, div_one]

theorem fallback_rate_one_silent_witness :
    (convert_foreign_transactions oddFetcher oddLedger none "GBP").converted =
      .ok [{ date := "2023-06-02", currency_code := "USD", owed := 7,
             date_curr := none, amount := some ((7 : Rat) / 1) }] ∧
    (convert_foreign_transactions oddFetcher oddLedger none "GBP").warnings = [] :=
  ⟨(fallback_rate_one_silent oddFetcher oddLedger none "GBP" oddTable rfl).1.trans rfl,
   (fallback_rate_one_silent oddFetcher oddLedger none "GBP" oddTable rfl).2.2⟩

/-- C10: once the stored file has been loaded successfully, the caller's
transactions frame is mutated in place: each of its rows gains the
`date_curr` composite-key column while every other field, the row count
and the row order are unchanged — and the key column is dropped only from
the returned result rows, not from the input frame. -/
theorem input_ledger_gains_key_column (fetch : Fetcher) (ts : List Txn)
    (file : Option RateFile) (base : String) (existing : RateTable)
    (hload : loadExchangeRates file = .ok existing) :
    (convert_foreign_transactions fetch ts file base).transactions =
      ts.map (fun t => { t with date_curr := some (compositeKey t.date t.currency_code) }) ∧
    (convert_foreign_transactions fetch ts file base).transactions.length = ts.length ∧
    (∀ out, (convert_foreign_transactions fetch ts file base).converted = .ok out →
      ∀ r ∈ out, r.date_curr = none) := by
  have htr : (convert_foreign_transactions fetch ts file base).transactions =
      withKeys ts := by
    rw [convert_foreign_transactions]
    exact update_transactions_of_load_ok hload
  refine ⟨htr, by rw [htr, withKeys, List.length_map], ?_⟩
  intro out hout r hr
  cases hrates : (update_exchange_rate_records fetch ts file base).rates with
  | error e =>
    rw [convert_converted_of_rates_error hrates] at hout
    cases hout
  | ok tbl =>
    rw [convert_converted_of_rates_ok hrates] at hout
    obtain rfl := by simpa using hout
    rw [List.mem_map] at hr
    obtain ⟨x, -, rfl⟩ := hr
    rfl

theorem input_ledger_gains_key_column_witness :
    (convert_foreign_transactions usdFetcher usdLedger none "GBP").transactions =
      [{ date := "2023-06-01", currency_code := "USD", owed := 100,
         date_curr := some "2023-06-01_USD" }] ∧
    (convert_foreign_transactions usdFetcher usdLedger none "GBP").transactions.length =
      usdLedger.length :=
  ⟨(input_ledger_gains_key_column usdFetcher usdLedger none "GBP" [] rfl).1.trans rfl,
   (input_ledger_gains_key_column usdFetcher usdLedger none "GBP" [] rfl).2.1⟩

/-- A ledger with three distinct foreign currencies on one single date. -/
def triLedger : List Txn :=
  [{ date := "2023-07-01", currency_code := "USD", owed := 1 },
   { date := "2023-07-01", currency_code := "EUR", owed := 2 },
   { date := "2023-07-01", currency_code := "JPY", owed := 3 }]

/-- A fetcher answering every request with rate 2 for exactly the
requested symbols. -/
def triFetcher : Fetcher := fun _ symbols => .ok (symbols.map fun c => (c, (2 : Rat)))

/-- C3: when the missing set is non-empty, the issued fetch calls are the
missing pairs grouped by date — exactly one call per distinct missing date
(the list of call dates has no duplicates and covers exactly the missing
dates), each call requesting all missing currencies of its date. -/
theorem fetch_batched_by_date (fetch : Fetcher) (ts : List Txn)
    (file : Option RateFile) (base : String) (existing : RateTable)
    (ndc : List (String × String × String)) (log : List (String × List String))
    (newRows : RateTable)
    (hndc : ndc = newDateCurrencies (dateCurrencies ts base)
      (existing.map fun r => r.date_curr))
    (hload : loadExchangeRates file = .ok existing)
    (hne : ndc ≠ [])
    (hfetch : fetchAll fetch (forexRequests ndc) = (log, .ok newRows)) :
    (update_exchange_rate_records fetch ts file base).fetches = forexRequests ndc ∧
    (forexRequests ndc).map (fun r => r.1) =
      sortByKey id (dedupByKey id (ndc.map fun p => p.2.1)) ∧
    ((forexRequests ndc).map (fun r => r.1)).Nodup ∧
    (∀ d, d ∈ (forexRequests ndc).map (fun r => r.1) ↔ d ∈ ndc.map fun p => p.2.1) ∧
    (∀ r ∈ forexRequests ndc, r.2 = (ndc.filter fun p => p.2.1 = r.1).map fun p => p.2.2) := by
  subst hndc
  have hdates : (forexRequests (newDateCurrencies (dateCurrencies ts base)
      (existing.map fun r => r.date_curr))).map (fun r => r.1) =
      sortByKey id (dedupByKey id ((newDateCurrencies (dateCurrencies ts base)
        (existing.map fun r => r.date_curr)).map fun p => p.2.1)) := by
    rw [forexRequests, List.map_map]
    exact List.map_id _
  refine ⟨?_, hdates, ?_, ?_, ?_⟩
  · rw [update_eq_of_fetch_ok hload hne hfetch]
    exact fetchAll_ok_log hfetch
  · rw [hdates]
    refine (perm_sortByKey id _).nodup_iff.mpr ?_
    have := @nodup_map_dedupByKey _ id
      ((newDateCurrencies (dateCurrencies ts base)
        (existing.map fun r => r.date_curr)).map fun p => p.2.1)
    rwa [List.map_id] at this
  · intro d
    rw [hdates, mem_sortByKey]
    have := @mem_map_dedupByKey _ id
      ((newDateCurrencies (dateCurrencies ts base)
        (existing.map fun r => r.date_curr)).map fun p => p.2.1) d
    simp only [List.map_id] at this
    exact this
  · intro r hr
    rw [forexRequests, List.mem_map] at hr
    obtain ⟨d, -, rfl⟩ := hr
    rfl

theorem fetch_batched_by_date_witness :
    (update_exchange_rate_records triFetcher triLedger none "GBP").fetches =
      [("2023-07-01", ["EUR", "JPY", "USD"])] ∧
    (update_exchange_rate_records triFetcher triLedger none "GBP").fetches.length = 1 := by
  have h := (fetch_batched_by_date triFetcher triLedger none "GBP" []
    [("2023-07-01_EUR", "2023-07-01", "EUR"),
     ("2023-07-01_JPY", "2023-07-01", "JPY"),
     ("2023-07-01_USD", "2023-07-01", "USD")]
    [("2023-07-01", ["EUR", "JPY", "USD"])]
    [⟨"2023-07-01_EUR", "2023-07-01", "EUR", (2 : Rat)⟩,
     ⟨"2023-07-01_JPY", "2023-07-01", "JPY", (2 : Rat)⟩,
     ⟨"2023-07-01_USD", "2023-07-01", "USD", (2 : Rat)⟩]
    (by decide) rfl (by decide) rfl).1
  have h2 : (update_exchange_rate_records triFetcher triLedger none "GBP").fetches =
      [("2023-07-01", ["EUR", "JPY", "USD"])] := h.trans rfl
  exact ⟨h2, by rw [h2]; rfl⟩

/-- A pre-populated rate store with one row, for exercising the merge. -/
def seedTable : RateTable := [⟨"2023-05-01_EUR", "2023-05-01", "EUR", (3 : Rat)⟩]

/-- The seed store persisted with the canonical schema. -/
def seedFile : RateFile := ⟨exchange_rate_column_names, seedTable⟩

/-- C9: after a successful fetch, the resulting table is exactly the
concatenation of the existing rows with the newly fetched rows sorted by
composite key — a permutation of the concatenation (so no row is dropped
or deduplicated: the length is the sum of the lengths) whose keys are in
order — and that full table is persisted with the fixed column order and
the header row. -/
theorem merged_table_sorted_concat (fetch : Fetcher) (ts : List Txn)
    (file : Option RateFile) (base : String) (existing : RateTable)
    (ndc : List (String × String × String)) (log : List (String × List String))
    (newRows : RateTable)
    (hndc : ndc = newDateCurrencies (dateCurrencies ts base)
      (existing.map fun r => r.date_curr))
    (hload : loadExchangeRates file = .ok existing)
    (hne : ndc ≠ [])
    (hfetch : fetchAll fetch (forexRequests ndc) = (log, .ok newRows)) :
    (update_exchange_rate_records fetch ts file base).rates =
      .ok (sortByKey (fun r => r.date_curr) (existing ++ newRows)) ∧
    (sortByKey (fun r => r.date_curr) (existing ++ newRows)).Perm (existing ++ newRows) ∧
    (sortByKey (fun r => r.date_curr) (existing ++ newRows)).Pairwise
      (fun a b => strLe a.date_curr b.date_curr = true) ∧
    (sortByKey (fun r => r.date_curr) (existing ++ newRows)).length =
      existing.length + newRows.length ∧
    (update_exchange_rate_records fetch ts file base).file =
      some ⟨exchange_rate_column_names,
        sortByKey (fun r => r.date_curr) (existing ++ newRows)⟩ ∧
    (update_exchange_rate_records fetch ts file base).writes =
      [⟨exchange_rate_column_names,
        sortByKey (fun r => r.date_curr) (existing ++ newRows)⟩] := by
  subst hndc
  rw [update_eq_of_fetch_ok hload hne hfetch]
  refine ⟨rfl, perm_sortByKey _ _, pairwise_sortByKey _ _, ?_, rfl, rfl⟩
  rw [(perm_sortByKey _ _).length_eq, List.length_append]

theorem merged_table_sorted_concat_witness :
    (update_exchange_rate_records usdFetcher usdLedger (some seedFile) "GBP").rates =
      .ok [⟨"2023-05-01_EUR", "2023-05-01", "EUR", (3 : Rat)⟩,
           ⟨"2023-06-01_USD", "2023-06-01", "USD", (5 : Rat) / 4⟩] ∧
    (update_exchange_rate_records usdFetcher usdLedger (some seedFile) "GBP").writes =
      [⟨exchange_rate_column_names,
        [⟨"2023-05-01_EUR", "2023-05-01", "EUR", (3 : Rat)⟩,
         ⟨"2023-06-01_USD", "2023-06-01", "USD", (5 : Rat) / 4⟩]⟩] := by
  have h := merged_table_sorted_concat usdFetcher usdLedger (some seedFile) "GBP"
    seedTable [("2023-06-01_USD", "2023-06-01", "USD")]
    [("2023-06-01", ["USD"])]
    [⟨"2023-06-01_USD", "2023-06-01", "USD", (5 : Rat) / 4⟩]
    (by decide) rfl (by decide) rfl
  exact ⟨h.1.trans rfl, h.2.2.2.2.2.trans rfl⟩

/-- A fetcher that succeeds for 2023-06-01 and fails for every later date. -/
def flakyFetcher : Fetcher := fun d _ =>
  if d = "2023-06-01" then .ok [("USD", (5 : Rat) / 4)] else .error "boom"

/-- A ledger whose missing pairs span two dates, the second of which the
fetcher fails on. -/
def twoDayLedger : List Txn :=
  [{ date := "2023-06-01", currency_code := "USD", owed := 10 },
   { date := "2023-06-02", currency_code := "EUR", owed := 20 }]

/-- C6, counterexample: with two missing dates where the first fetch
succeeds and the second raises, both calls are issued and the first one
returns rows, yet nothing is written to the rate-store file — the rows
already fetched are lost, contradicting "the rates already fetched are
still persisted". -/
theorem fetch_failure_discards_progress :
    (update_exchange_rate_records flakyFetcher twoDayLedger none "GBP").fetches =
      [("2023-06-01", ["USD"]), ("2023-06-02", ["EUR"])] ∧
    get_exchange_rates flakyFetcher ["USD"] "2023-06-01" =
      .ok [⟨"2023-06-01_USD", "2023-06-01", "USD", (5 : Rat) / 4⟩] ∧
    (update_exchange_rate_records flakyFetcher twoDayLedger none "GBP").rates =
      .error (.fetch "boom") ∧
    (update_exchange_rate_records flakyFetcher twoDayLedger none "GBP").writes = [] ∧
    (update_exchange_rate_records flakyFetcher twoDayLedger none "GBP").file = none :=
  ⟨rfl, rfl, rfl, rfl, rfl⟩

/-- C6, amended: the merged store is persisted inside the rate-update step
itself, before any conversion of the ledger — but only once every fetch
has succeeded.  If any fetch raises, the run aborts with no write at all:
rates fetched for earlier dates of the same run are not persisted. -/
theorem persisted_only_after_all_fetches :
    (∀ fetch ts file base,
      (convert_foreign_transactions fetch ts file base).writes =
        (update_exchange_rate_records fetch ts file base).writes ∧
      (convert_foreign_transactions fetch ts file base).file =
        (update_exchange_rate_records fetch ts file base).file) ∧
    (∀ fetch ts file base e,
      (update_exchange_rate_records fetch ts file base).rates = .error e →
      (update_exchange_rate_records fetch ts file base).writes = [] ∧
      (update_exchange_rate_records fetch ts file base).file = file) ∧
    (∀ fetch ts file base existing ndc log newRows,
      ndc = newDateCurrencies (dateCurrencies ts base)
        (existing.map fun r => r.date_curr) →
      loadExchangeRates file = .ok existing →
      ndc ≠ [] →
      fetchAll fetch (forexRequests ndc) = (log, .ok newRows) →
      (update_exchange_rate_records fetch ts file base).writes =
        [⟨exchange_rate_column_names,
          sortByKey (fun r => r.date_curr) (existing ++ newRows)⟩]) := by
  refine ⟨fun fetch ts file base => ⟨rfl, rfl⟩, ?_, ?_⟩
  · intro fetch ts file base e h
    cases hload : loadExchangeRates file with
    | error e2 => rw [update_eq_of_load_error hload]; exact ⟨rfl, rfl⟩
    | ok existing =>
      by_cases hndc : newDateCurrencies (dateCurrencies ts base)
          (existing.map fun r => r.date_curr) = []
      · rw [update_eq_of_no_missing hload hndc] at h; cases h
      · rcases hf : fetchAll fetch (forexRequests (newDateCurrencies (dateCurrencies ts base)
            (existing.map fun r => r.date_curr))) with ⟨log, res⟩
        cases res with
        | error e2 => rw [update_eq_of_fetch_error hload hndc hf]; exact ⟨rfl, rfl⟩
        | ok newRows => rw [update_eq_of_fetch_ok hload hndc hf] at h; cases h
  · intro fetch ts file base existing ndc log newRows hndc hload hne hfetch
    subst hndc
    rw [update_eq_of_fetch_ok hload hne hfetch]

theorem persisted_only_after_all_fetches_witness :
    (convert_foreign_transactions flakyFetcher twoDayLedger none "GBP").writes =
      (update_exchange_rate_records flakyFetcher twoDayLedger none "GBP").writes ∧
    (update_exchange_rate_records flakyFetcher twoDayLedger none "GBP").writes = [] ∧
    (update_exchange_rate_records usdFetcher usdLedger none "GBP").writes =
      [⟨exchange_rate_column_names, usdTable⟩] := by
  refine ⟨(persisted_only_after_all_fetches.1 flakyFetcher twoDayLedger none "GBP").1,
    (persisted_only_after_all_fetches.2.1 flakyFetcher twoDayLedger none "GBP"
      (.fetch "boom") rfl).1, ?_⟩
  have h := persisted_only_after_all_fetches.2.2 usdFetcher usdLedger none "GBP"
    [] [("2023-06-01_USD", "2023-06-01", "USD")] [("2023-06-01", ["USD"])]
    [⟨"2023-06-01_USD", "2023-06-01", "USD", (5 : Rat) / 4⟩]
    (by decide) rfl (by decide) rfl
  exact h.trans rfl

theorem ndc_nil_of_covered (ts : List Txn) (base : String) (ek : List String)
    (hcov : ∀ t ∈ ts, t.currency_code ≠ base →
      compositeKey t.date t.currency_code ∈ ek) :
    newDateCurrencies (dateCurrencies ts base) ek = [] := by
  rw [newDateCurrencies]
  have hfil : ((dateCurrencies ts base).map fun p => p.1).filter
      (fun k => k ∉ ek) = [] := by
    rw [List.filter_eq_nil_iff]
    intro k hk
    rw [mem_keys_dateCurrencies] at hk
    obtain ⟨t, ht, hb, rfl⟩ := hk
    simpa using hcov t ht hb
  rw [hfil]
  rfl

/-- C4: when the existing table already holds every composite key the
ledger requires (in particular for an empty or all-base-currency ledger),
the missing set is empty, no fetch call is issued, nothing is written and
the file is untouched; and — provided the API returns the requested
symbols — a second run immediately after any successful run issues zero
fetch calls and writes nothing. -/
theorem complete_store_no_fetch_no_write :
    (∀ fetch ts file base existing,
      loadExchangeRates file = .ok existing →
      (∀ t ∈ ts, t.currency_code ≠ base →
        compositeKey t.date t.currency_code ∈ existing.map fun r => r.date_curr) →
      newDateCurrencies (dateCurrencies ts base)
        (existing.map fun r => r.date_curr) = [] ∧
      (update_exchange_rate_records fetch ts file base).fetches = [] ∧
      (update_exchange_rate_records fetch ts file base).writes = [] ∧
      (update_exchange_rate_records fetch ts file base).rates = .ok existing ∧
      (update_exchange_rate_records fetch ts file base).file = file) ∧
    (∀ fetch ts file base tbl,
      FetcherReturnsRequested fetch →
      (update_exchange_rate_records fetch ts file base).rates = .ok tbl →
      (update_exchange_rate_records fetch ts
        (update_exchange_rate_records fetch ts file base).file base).fetches = [] ∧
      (update_exchange_rate_records fetch ts
        (update_exchange_rate_records fetch ts file base).file base).writes = []) := by
  constructor
  · intro fetch ts file base existing hload hcov
    have hndc := ndc_nil_of_covered ts base (existing.map fun r => r.date_curr) hcov
    rw [update_eq_of_no_missing hload hndc]
    exact ⟨hndc, rfl, rfl, rfl, rfl⟩
  · intro fetch ts file base tbl hgood hok
    cases hload : loadExchangeRates file with
    | error e => rw [update_eq_of_load_error hload] at hok; cases hok
    | ok existing =>
      by_cases hndc : newDateCurrencies (dateCurrencies ts base)
          (existing.map fun r => r.date_curr) = []
      · rw [update_eq_of_no_missing hload hndc]
        rw [update_eq_of_no_missing hload hndc]
        exact ⟨rfl, rfl⟩
      · rcases hf : fetchAll fetch (forexRequests (newDateCurrencies (dateCurrencies ts base)
            (existing.map fun r => r.date_curr))) with ⟨log, res⟩
        cases res with
        | error e => rw [update_eq_of_fetch_error hload hndc hf] at hok; cases hok
        | ok newRows =>
          rw [update_eq_of_fetch_ok hload hndc hf]
          have hload2 : loadExchangeRates (some ⟨exchange_rate_column_names,
              sortByKey (fun r => r.date_curr) (existing ++ newRows)⟩) =
              .ok (sortByKey (fun r => r.date_curr) (existing ++ newRows)) := rfl
          have hcov2 : ∀ t ∈ ts, t.currency_code ≠ base →
              compositeKey t.date t.currency_code ∈
                (sortByKey (fun r => r.date_curr) (existing ++ newRows)).map
                  fun r => r.date_curr := by
            intro t ht hb
            have hperm : ((sortByKey (fun r => r.date_curr) (existing ++ newRows)).map
                fun r => r.date_curr).Perm
                ((existing ++ newRows).map fun r => r.date_curr) :=
              (perm_sortByKey _ _).map _
            rw [hperm.mem_iff, List.map_append, List.mem_append]
            by_cases hex : compositeKey t.date t.currency_code ∈
                existing.map fun r => r.date_curr
            · exact Or.inl hex
            · right
              have hkey : compositeKey t.date t.currency_code ∈
                  (newDateCurrencies (dateCurrencies ts base)
                    (existing.map fun r => r.date_curr)).map fun p => p.1 :=
                mem_keys_newDateCurrencies.mpr
                  ⟨mem_keys_dateCurrencies.mpr ⟨t, ht, hb, rfl⟩, hex⟩
              rw [List.mem_map] at hkey
              obtain ⟨p, hp, hpk⟩ := hkey
              have hreq : (p.2.1, ((newDateCurrencies (dateCurrencies ts base)
                  (existing.map fun r => r.date_curr)).filter
                    fun q => q.2.1 = p.2.1).map fun q => q.2.2) ∈
                  forexRequests (newDateCurrencies (dateCurrencies ts base)
                    (existing.map fun r => r.date_curr)) := by
                rw [forexRequests]
                refine List.mem_map_of_mem _ ?_
                rw [mem_sortByKey]
                have hmm := @mem_map_dedupByKey _ id
                  ((newDateCurrencies (dateCurrencies ts base)
                    (existing.map fun r => r.date_curr)).map fun q => q.2.1)
                  (p.2.1)
                simp only [List.map_id] at hmm
                exact hmm.mpr (List.mem_map_of_mem _ hp)
              have hcur : p.2.2 ∈ ((newDateCurrencies (dateCurrencies ts base)
                  (existing.map fun r => r.date_curr)).filter
                    fun q => q.2.1 = p.2.1).map fun q => q.2.2 :=
                List.mem_map_of_mem _ (List.mem_filter.mpr ⟨hp, by simp⟩)
              have hk := mem_keys_fetchAll hgood hf _ hreq _ hcur
              have hpkey : p.1 = compositeKey p.2.1 p.2.2 :=
                (mem_dateCurrencies (mem_newDateCurrencies hp).1).2.1
              rw [← hpk, hpkey]
              exact hk
          have hndc2 := ndc_nil_of_covered ts base
            ((sortByKey (fun r => r.date_curr) (existing ++ newRows)).map
              fun r => r.date_curr) hcov2
          rw [update_eq_of_no_missing hload2 hndc2]
          exact ⟨rfl, rfl⟩

theorem complete_store_no_fetch_no_write_witness :
    (update_exchange_rate_records triFetcher ([] : List Txn) none "GBP").fetches = [] ∧
    (update_exchange_rate_records triFetcher
      [{ date := "2023-07-01", currency_code := "GBP", owed := 4 }] none "GBP").fetches = [] ∧
    (update_exchange_rate_records triFetcher triLedger
      (update_exchange_rate_records triFetcher triLedger none "GBP").file "GBP").fetches = [] ∧
    (update_exchange_rate_records triFetcher triLedger
      (update_exchange_rate_records triFetcher triLedger none "GBP").file "GBP").writes = [] := by
  have hgood : FetcherReturnsRequested triFetcher := by
    intro d symbols rates h
    rw [triFetcher] at h
    obtain rfl : (symbols.map fun c => (c, (2 : Rat))) = rates := by simpa using h
    rw [List.map_map, show (Prod.fst ∘ fun c : String => (c, (2 : Rat))) = id from rfl,
      List.map_id]
  refine ⟨(complete_store_no_fetch_no_write.1 triFetcher [] none "GBP" [] rfl
      (by intro t ht; cases ht)).2.1,
    (complete_store_no_fetch_no_write.1 triFetcher
      [{ date := "2023-07-01", currency_code := "GBP", owed := 4 }] none "GBP" [] rfl
      ?_).2.1,
    complete_store_no_fetch_no_write.2 triFetcher triLedger none "GBP"
      [⟨"2023-07-01_EUR", "2023-07-01", "EUR", (2 : Rat)⟩,
       ⟨"2023-07-01_JPY", "2023-07-01", "JPY", (2 : Rat)⟩,
       ⟨"2023-07-01_USD", "2023-07-01", "USD", (2 : Rat)⟩] hgood rfl⟩
  intro t ht hb
  rcases List.mem_cons.mp ht with rfl | ht
  · exact absurd rfl hb
  · cases ht

end SmartFinances
